import Mathlib

set_option linter.dupNamespace false

/-
Verification of the lt::async concurrency library (src/include/lt/async/async.h
and src/include/lt/async/async-retry.h) against its specification.

The library is header-only C++. Its data model is tl::expected (a sum of a
value and an error), shallowly embedded below as the inductive type
`lt.async.expected`. The runners are loops over std::vector, embedded as
structural recursion over List. Actions handed to the runners are embedded as
pure Lean functions; where the specification speaks about how often an action
is invoked, an instrumented companion definition records the invocation trace
or count produced by the very same loop structure.

The retry policies (lt::retry::RetryPolicy, lt::retry::PreemptibleRetry) live
in lt/retry/retry.h, which is not part of this repository source; they are
modelled from the specification contract, as marked on their definitions.
-/

namespace lt.async

/-- Shallow embedding of tl::expected, the result sum type used throughout
the library: either a value of type α or an unexpected error of type ε. -/
inductive expected (α ε : Type) where
  | value : α → expected α ε
  | unexpected : ε → expected α ε
deriving DecidableEq, Repr

/-- Embedding of tl::expected::has_value / operator bool. -/
def expected.has_value : expected α ε → Bool
  | .value _ => true
  | .unexpected _ => false

/-- Embedding of tl::expected::map: apply f to the stored value, pass an
error through unchanged. -/
def expected.map (f : α → β) : expected α ε → expected β ε
  | .value a => .value (f a)
  | .unexpected e => .unexpected e

/-- Embedding of tl::expected::value_or: the stored value, or the given
default when the expected holds an error. -/
def expected.value_or : expected α ε → α → α
  | .value a, _ => a
  | .unexpected _, d => d

/-- attempt_result_t: result of an attempt on a single input
(tl::expected of one output or one error). -/
abbrev attempt_result_t (ο ε : Type) := expected ο ε

/-- aggregate_result_t: result of an attempt on a vector of inputs
(tl::expected of the ordered output vector or one error). -/
abbrev aggregate_result_t (ο ε : Type) := expected (List ο) ε

/-- Embedding of async_base::map (async.h lines 57-74): run f on each input
in order in the calling thread; on the first error return it immediately,
otherwise push the output and continue; on full success return the outputs
in input order. -/
def async_base.map (f : ι → attempt_result_t ο ε) : List ι → aggregate_result_t ο ε
  | [] => .value []
  | i :: rest =>
    match f i with
    | .unexpected e => .unexpected e
    | .value o =>
      match async_base.map f rest with
      | .unexpected e => .unexpected e
      | .value os => .value (o :: os)

/-- Instrumentation of the same loop as async_base.map: the list of inputs on
which f is invoked, in invocation order. The loop body invokes f on the
current input; on an error the loop returns, so no later input is reached. -/
def async_base.map_invoked (f : ι → attempt_result_t ο ε) : List ι → List ι
  | [] => []
  | i :: rest =>
    match f i with
    | .unexpected _ => [i]
    | .value _ => i :: async_base.map_invoked f rest

/-- Embedding of the spawn loop of async::map_concurrently (async.h lines
114-121): one future is pushed per input, unconditionally, each holding the
result of one invocation of f on that input (std::async with
std::launch::async). In the pure embedding a future is identified with the
attempt result it will deliver to f.get(), which is read back in spawn
order. -/
def async.futures (f : ι → attempt_result_t ο ε) : List ι → List (attempt_result_t ο ε)
  | [] => []
  | i :: rest => f i :: async.futures f rest

/-- Embedding of the final walk of async::map_concurrently (async.h lines
128-136) over the fully collected results vector: on the first (lowest-index)
error return it, otherwise push each output and return the whole output
vector. -/
def async.collect_results : List (attempt_result_t ο ε) → aggregate_result_t ο ε
  | [] => .value []
  | r :: rest =>
    match r with
    | .unexpected e => .unexpected e
    | .value o =>
      match async.collect_results rest with
      | .unexpected e => .unexpected e
      | .value os => .value (o :: os)

/-- Embedding of async::map_concurrently (async.h lines 110-136): spawn one
future per input, join them all (collect every result in spawn order), then
walk the results in input order. -/
def async.map_concurrently (f : ι → attempt_result_t ο ε) (input : List ι) :
    aggregate_result_t ο ε :=
  async.collect_results (async.futures f input)

/-- Modelled from the spec: lt::retry::RetryStatus (lt/retry/retry.h is not in
this repository source). An opaque per-unit attempt-state token maintained by
the policy; the aspect the contract exposes is the attempt counter, modelled
as the number of attempts already completed. -/
abbrev RetryStatus := Nat

/-- Modelled from the spec: lt::retry::RetryPolicy (lt/retry/retry.h is not in
this repository source). An external immutable decision object; the contract
visible to this core is a retry budget (e.g. limitRetries) bounding how many
times the loop may repeat. Backoff delays have no observable effect in the
value model. -/
structure RetryPolicy where
  limit : Nat
deriving DecidableEq, Repr

/-- Modelled from the spec: the loop behind RetryPolicy::retry, instrumented
with the number of invocations of the action. It invokes the action with the
current RetryStatus; while should_retry holds on the status and the produced
result and the retry budget (fuel) is not exhausted, it repeats with the
status advanced; when it stops it returns the last result produced. -/
def retry_go (should_retry : RetryStatus → α → Bool) (action : RetryStatus → α) :
    Nat → RetryStatus → α × Nat
  | 0, status => (action status, 1)
  | fuel + 1, status =>
    if should_retry status (action status) then
      ((retry_go should_retry action fuel (status + 1)).1,
       (retry_go should_retry action fuel (status + 1)).2 + 1)
    else (action status, 1)

/-- Modelled from the spec: RetryPolicy::retry, the external retry-loop
contract consumed by async_retry::map_concurrently_retry. Repeats the action
while should_retry is true and the budget allows, returning the last
AttemptResult produced. -/
def RetryPolicy.retry (p : RetryPolicy) (should_retry : RetryStatus → α → Bool)
    (action : RetryStatus → α) : α :=
  (retry_go should_retry action p.limit 0).1

/-- Number of invocations of the action performed by RetryPolicy.retry
(instrumentation of the same modelled loop). -/
def RetryPolicy.retry_count (p : RetryPolicy) (should_retry : RetryStatus → α → Bool)
    (action : RetryStatus → α) : Nat :=
  (retry_go should_retry action p.limit 0).2

/-- Embedding of the inner_should_retry lambda of
async_retry::map_concurrently_retry (async-retry.h lines 66-72): adapt the
caller predicate, which only speaks about outputs, to the policy contract,
which sees a whole AttemptResult: map the predicate over the result and
default to false when the result is an error. -/
def async_retry.inner_should_retry (should_retry : RetryStatus → ο → Bool)
    (retry_status : RetryStatus) (result : attempt_result_t ο ε) : Bool :=
  (result.map (fun o => should_retry retry_status o)).value_or false

/-- Embedding of the retry_f lambda of async_retry::map_concurrently_retry
(async-retry.h lines 74-83): wrap one input in the policy retry loop, handing
it the adapted predicate and an inner action that ignores the status token
and invokes f on the fixed input. -/
def async_retry.retry_f (retry_policy : RetryPolicy)
    (should_retry : RetryStatus → ο → Bool) (f : ι → attempt_result_t ο ε)
    (i : ι) : attempt_result_t ο ε :=
  retry_policy.retry (async_retry.inner_should_retry should_retry)
    (fun _ => f i)

/-- Embedding of async_retry::map_concurrently_retry (async-retry.h lines
61-84): build the retry-wrapped action and delegate fan-out and fan-in to
async::map_concurrently. -/
def async_retry.map_concurrently_retry (retry_policy : RetryPolicy)
    (should_retry : RetryStatus → ο → Bool) (f : ι → attempt_result_t ο ε)
    (input : List ι) : aggregate_result_t ο ε :=
  async.map_concurrently (async_retry.retry_f retry_policy should_retry f) input

/-- Number of invocations of f performed for one input by the retry-wrapped
action of async_retry::map_concurrently_retry (instrumentation of the same
modelled policy loop that async_retry.retry_f invokes). -/
def async_retry.unit_attempt_count (retry_policy : RetryPolicy)
    (should_retry : RetryStatus → ο → Bool) (f : ι → attempt_result_t ο ε)
    (i : ι) : Nat :=
  retry_policy.retry_count (async_retry.inner_should_retry should_retry)
    (fun _ => f i)

/-- Modelled from the spec: lt::retry::PreemptibleRetryStatus (lt/retry/retry.h
is not in this repository source). As for RetryStatus, the exposed aspect is
the per-unit attempt counter. -/
abbrev PreemptibleRetryStatus := Nat

/-- Modelled from the spec: lt::retry::PreemptibleRetry (lt/retry/retry.h is
not in this repository source). An external policy composed of a before-phase
and an after-phase RetryPolicy; its combined retry budget bounds the loop. -/
structure PreemptibleRetry where
  policy_before : RetryPolicy
  policy_after : RetryPolicy
deriving DecidableEq, Repr

/-- Combined retry budget of the two phases of a PreemptibleRetry. -/
def PreemptibleRetry.fuel (p : PreemptibleRetry) : Nat :=
  p.policy_before.limit + p.policy_after.limit

/-- Modelled from the spec: the loop behind PreemptibleRetry::retry,
instrumented with the number of invocations of the action. As in retry_go,
the action runs with the current status and the loop repeats while
should_retry holds and the budget allows; in addition the cancellation
condition is checked at each attempt boundary, before a new retry attempt is
started: cond n is the value the unit observes at the boundary before attempt
number n (attempts are numbered from 0 and the first attempt is not gated).
When cond is observed true the loop terminates with the result of the
attempt that already ran to completion. The condition variable and mutex the
core passes through only govern how the real policy sleeps between attempts;
they have no observable effect in the value model beyond the observation
sequence cond. -/
def preemptible_retry_go (cond : Nat → Bool)
    (should_retry : PreemptibleRetryStatus → α → Bool)
    (action : PreemptibleRetryStatus → α) : Nat → PreemptibleRetryStatus → α × Nat
  | 0, status => (action status, 1)
  | fuel + 1, status =>
    if should_retry status (action status) then
      if cond (status + 1) then (action status, 1)
      else
        ((preemptible_retry_go cond should_retry action fuel (status + 1)).1,
         (preemptible_retry_go cond should_retry action fuel (status + 1)).2 + 1)
    else (action status, 1)

/-- Modelled from the spec: PreemptibleRetry::retry, the external contract
consumed by async_preemptible_retry::map_concurrently_preemptible_retry. -/
def PreemptibleRetry.retry (p : PreemptibleRetry) (cond : Nat → Bool)
    (should_retry : PreemptibleRetryStatus → α → Bool)
    (action : PreemptibleRetryStatus → α) : α :=
  (preemptible_retry_go cond should_retry action p.fuel 0).1

/-- Number of invocations of the action performed by PreemptibleRetry.retry
(instrumentation of the same modelled loop). -/
def PreemptibleRetry.retry_count (p : PreemptibleRetry) (cond : Nat → Bool)
    (should_retry : PreemptibleRetryStatus → α → Bool)
    (action : PreemptibleRetryStatus → α) : Nat :=
  (preemptible_retry_go cond should_retry action p.fuel 0).2

/-- Embedding of the inner_should_retry lambda of
async_preemptible_retry::map_concurrently_preemptible_retry (async-retry.h
lines 177-183): identical adaptation to async_retry.inner_should_retry, over
PreemptibleRetryStatus. -/
def async_preemptible_retry.inner_should_retry
    (should_retry : PreemptibleRetryStatus → ο → Bool)
    (retry_status : PreemptibleRetryStatus) (result : attempt_result_t ο ε) : Bool :=
  (result.map (fun o => should_retry retry_status o)).value_or false

/-- Embedding of the retry_f lambda of
async_preemptible_retry::map_concurrently_preemptible_retry (async-retry.h
lines 185-192): wrap one input in the preemptible policy retry loop, passing
the cancellation observation through unchanged together with the adapted
predicate and the inner action on the fixed input. -/
def async_preemptible_retry.retry_f (policy : PreemptibleRetry)
    (cond : Nat → Bool) (should_retry : PreemptibleRetryStatus → ο → Bool)
    (f : ι → attempt_result_t ο ε) (i : ι) : attempt_result_t ο ε :=
  policy.retry cond (async_preemptible_retry.inner_should_retry should_retry)
    (fun _ => f i)

/-- Embedding of async_preemptible_retry::map_concurrently_preemptible_retry
(async-retry.h lines 166-193): build the preemptible retry-wrapped action and
delegate fan-out and fan-in to async::map_concurrently. -/
def async_preemptible_retry.map_concurrently_preemptible_retry
    (policy : PreemptibleRetry) (cond : Nat → Bool)
    (should_retry : PreemptibleRetryStatus → ο → Bool)
    (f : ι → attempt_result_t ο ε) (input : List ι) : aggregate_result_t ο ε :=
  async.map_concurrently
    (async_preemptible_retry.retry_f policy cond should_retry f) input

/-- Number of invocations of f performed for one input by the preemptible
retry-wrapped action (instrumentation of the same modelled policy loop that
async_preemptible_retry.retry_f invokes). -/
def async_preemptible_retry.unit_attempt_count (policy : PreemptibleRetry)
    (cond : Nat → Bool) (should_retry : PreemptibleRetryStatus → ο → Bool)
    (f : ι → attempt_result_t ο ε) (i : ι) : Nat :=
  policy.retry_count cond (async_preemptible_retry.inner_should_retry should_retry)
    (fun _ => f i)

/-! Helper lemmas shared by the claim theorems. -/

theorem expected.has_value_iff (r : expected α ε) :
    r.has_value = true ↔ ∃ a, r = .value a := by
  cases r <;> simp [expected.has_value]

theorem expected.has_value_false_iff (r : expected α ε) :
    r.has_value = false ↔ ∃ e, r = .unexpected e := by
  cases r <;> simp [expected.has_value]

theorem map_concurrently_nil (f : ι → attempt_result_t ο ε) :
    async.map_concurrently f ([] : List ι) = .value [] := rfl

theorem map_concurrently_cons (f : ι → attempt_result_t ο ε) (i : ι) (rest : List ι) :
    async.map_concurrently f (i :: rest) =
      match f i with
      | .unexpected e => .unexpected e
      | .value o =>
        match async.map_concurrently f rest with
        | .unexpected e => .unexpected e
        | .value os => .value (o :: os) := rfl

theorem futures_eq_map (f : ι → attempt_result_t ο ε) :
    ∀ input : List ι, async.futures f input = input.map f
  | [] => rfl
  | i :: rest => by simp [async.futures, futures_eq_map f rest]

theorem map_eq_map_concurrently (f : ι → attempt_result_t ο ε) :
    ∀ input : List ι, async_base.map f input = async.map_concurrently f input
  | [] => rfl
  | i :: rest => by
      rw [map_concurrently_cons, ← map_eq_map_concurrently f rest]
      simp only [async_base.map]

theorem map_first_error (f : ι → attempt_result_t ο ε) :
    ∀ (input : List ι) (i : Nat) (hi : i < input.length) (e : ε),
      (∀ (j : Nat) (hj : j < input.length), j < i → (f input[j]).has_value = true) →
      f input[i] = .unexpected e →
      async_base.map f input = .unexpected e ∧
        async_base.map_invoked f input = input.take (i + 1)
  | [], i, hi, _, _, _ => absurd hi (by simp)
  | x :: rest, 0, _, e, _, herr => by
      simp only [List.getElem_cons_zero] at herr
      exact ⟨by simp [async_base.map, herr], by simp [async_base.map_invoked, herr]⟩
  | x :: rest, i + 1, hi, e, hpre, herr => by
      have hx : (f x).has_value = true := by
        have := hpre 0 (by simp) (Nat.succ_pos i)
        simpa using this
      obtain ⟨o, ho⟩ := (expected.has_value_iff (f x)).1 hx
      have hi2 : i < rest.length := by simpa using hi
      have hrest := map_first_error f rest i hi2 e
        (fun j hj hji => by
          have := hpre (j + 1) (by simpa using hj) (Nat.succ_lt_succ hji)
          simpa using this)
        (by simpa using herr)
      exact ⟨by simp [async_base.map, ho, hrest.1],
             by simp [async_base.map_invoked, ho, hrest.2]⟩

theorem map_success (f : ι → attempt_result_t ο ε) (g : ι → ο) :
    ∀ input : List ι, (∀ x ∈ input, f x = .value (g x)) →
      async_base.map f input = .value (input.map g) ∧
        async_base.map_invoked f input = input
  | [], _ => ⟨rfl, rfl⟩
  | x :: rest, h => by
      have hx := h x (by simp)
      have hrest := map_success f g rest (fun y hy => h y (by simp [hy]))
      exact ⟨by simp [async_base.map, hx, hrest.1],
             by simp [async_base.map_invoked, hx, hrest.2]⟩

theorem map_concurrently_has_value_false_iff (f : ι → attempt_result_t ο ε) :
    ∀ input : List ι,
      (async.map_concurrently f input).has_value = false ↔
        ∃ x ∈ input, (f x).has_value = false
  | [] => by simp [map_concurrently_nil, expected.has_value]
  | i :: rest => by
      rw [map_concurrently_cons]
      cases hfi : f i with
      | unexpected e =>
          simp only [expected.has_value, true_iff]
          exact ⟨i, by simp, by simp [hfi, expected.has_value]⟩
      | value o =>
          cases hrest : async.map_concurrently f rest with
          | unexpected e2 =>
              simp only [expected.has_value, true_iff]
              have := (map_concurrently_has_value_false_iff f rest).1
                (by simp [hrest, expected.has_value])
              obtain ⟨x, hx, hfx⟩ := this
              exact ⟨x, by simp [hx], hfx⟩
          | value os =>
              constructor
              · intro h
                simp [expected.has_value] at h
              intro hcontra
              exfalso
              obtain ⟨x, hx, hfx⟩ := hcontra
              rcases List.mem_cons.1 hx with hxi | hxr
              · rw [hxi, hfi] at hfx
                simp [expected.has_value] at hfx
              · have := (map_concurrently_has_value_false_iff f rest).2 ⟨x, hxr, hfx⟩
                rw [hrest] at this
                simp [expected.has_value] at this

theorem map_concurrently_congr (f f2 : ι → attempt_result_t ο ε) :
    ∀ input : List ι, (∀ x ∈ input, f2 x = f x) →
      async.map_concurrently f2 input = async.map_concurrently f input
  | [], _ => rfl
  | i :: rest, h => by
      rw [map_concurrently_cons, map_concurrently_cons, h i (by simp),
        map_concurrently_congr f f2 rest (fun y hy => h y (by simp [hy]))]

theorem inner_should_retry_on_unexpected (sr : RetryStatus → ο → Bool)
    (st : RetryStatus) (e : ε) :
    async_retry.inner_should_retry sr st (.unexpected e : attempt_result_t ο ε) = false := rfl

theorem inner_should_retry_on_value (sr : RetryStatus → ο → Bool)
    (st : RetryStatus) (o : ο) :
    async_retry.inner_should_retry sr st (.value o : attempt_result_t ο ε) = sr st o := rfl

theorem retry_go_stop (q : RetryStatus → α → Bool) (a : α) :
    ∀ (fuel s : Nat), q s a = false → retry_go q (fun _ => a) fuel s = (a, 1)
  | 0, _, _ => rfl
  | fuel + 1, s, h => by
      simp only [retry_go]
      rw [if_neg (by simp [h])]

theorem retry_go_threshold (q : RetryStatus → α → Bool) (a : α) (k : Nat)
    (hq : ∀ st, q st a = decide (st < k)) :
    ∀ (fuel s : Nat), k - s ≤ fuel →
      (retry_go q (fun _ => a) fuel s).1 = a ∧
        (retry_go q (fun _ => a) fuel s).2 = (k - s) + 1
  | 0, s, hle => ⟨rfl, by show 1 = (k - s) + 1; omega⟩
  | fuel + 1, s, hle => by
      by_cases hs : s < k
      · have hq1 : q s a = true := by rw [hq]; simpa using hs
        obtain ⟨ih1, ih2⟩ := retry_go_threshold q a k hq fuel (s + 1) (by omega)
        simp only [retry_go]
        rw [if_pos hq1]
        refine ⟨ih1, ?_⟩
        show (retry_go q (fun _ => a) fuel (s + 1)).2 + 1 = (k - s) + 1
        rw [ih2]
        omega
      · have hq0 : q s a = false := by rw [hq]; simpa using hs
        rw [retry_go_stop q a (fuel + 1) s hq0]
        exact ⟨rfl, by show 1 = (k - s) + 1; omega⟩

theorem preemptible_retry_go_bound (cond : Nat → Bool)
    (q : PreemptibleRetryStatus → α → Bool) (a : PreemptibleRetryStatus → α) (k : Nat)
    (hmono : ∀ m n : Nat, m ≤ n → cond m = true → cond n = true)
    (hk : cond k = true) :
    ∀ (fuel s : Nat), (preemptible_retry_go cond q a fuel s).2 ≤ max (k - s) 1
  | 0, s => by
      show (1 : Nat) ≤ max (k - s) 1
      exact Nat.le_max_right _ _
  | fuel + 1, s => by
      simp only [preemptible_retry_go]
      by_cases hq : q s (a s) = true
      · rw [if_pos hq]
        by_cases hc : cond (s + 1) = true
        · rw [if_pos hc]
          exact Nat.le_max_right _ _
        · rw [if_neg hc]
          have hcf : cond (s + 1) = false := Bool.eq_false_iff.mpr hc
          have hsk : s + 1 < k := by
            rcases Nat.lt_or_ge (s + 1) k with h | h
            · exact h
            · exact absurd (hmono k (s + 1) h hk) (by simp [hcf])
          have ih := preemptible_retry_go_bound cond q a k hmono hk fuel (s + 1)
          rw [Nat.max_eq_left (show 1 ≤ k - (s + 1) by omega)] at ih
          rw [Nat.max_eq_left (show 1 ≤ k - s by omega)]
          show (preemptible_retry_go cond q a fuel (s + 1)).2 + 1 ≤ k - s
          omega
      · rw [if_neg hq]
        exact Nat.le_max_right _ _

/-! Claim theorems. -/

/-- C1: for every action and input sequence, the AggregateResult returned by
map_concurrently is an Error iff at least one per-input AttemptResult was an
Error; when it is an Error it carries exactly the error value of the
lowest-index failing input (a single error value), and all other units'
results are discarded. Completion order does not occur in the model because
the source reads futures back in spawn order. -/
theorem C1_aggregate_error_iff_lowest_index (f : ι → attempt_result_t ο ε)
    (input : List ι) :
    ((async.map_concurrently f input).has_value = false ↔
        ∃ x ∈ input, (f x).has_value = false) ∧
    (∀ (i : Nat) (hi : i < input.length) (e : ε),
        (∀ (j : Nat) (hj : j < input.length), j < i → (f input[j]).has_value = true) →
        f input[i] = .unexpected e →
        async.map_concurrently f input = .unexpected e) := by
  refine ⟨map_concurrently_has_value_false_iff f input, ?_⟩
  intro i hi e hpre herr
  rw [← map_eq_map_concurrently]
  exact (map_first_error f input i hi e hpre herr).1

/-- Witness for C1: inputs 0, 1, 2 where both 1 and 2 fail; the aggregate is
the error of index 1, the lowest failing index, even though index 2 also
failed. -/
theorem C1_witness :
    async.map_concurrently
      (fun n => if n = 1 then (.unexpected 9 : attempt_result_t Nat Nat)
                else if n = 2 then .unexpected 5 else .value n)
      [0, 1, 2] = .unexpected 9 :=
  (C1_aggregate_error_iff_lowest_index
      (fun n => if n = 1 then (.unexpected 9 : attempt_result_t Nat Nat)
                else if n = 2 then .unexpected 5 else .value n)
      [0, 1, 2]).2 1 (by decide) 9
    (by
      intro j hj hj1
      have hj0 : j = 0 := by omega
      subst hj0
      simp [expected.has_value])
    (by decide)

/-- C2: the sequential map invokes the action on each input in input order; on
the first Error result it returns immediately with that error and the action
is never invoked on any input after the failing index (the invocation trace
is exactly the inputs up to and including the failing one); if every
invocation returns an Output, it returns the outputs in input order, having
invoked the action on every input. -/
theorem C2_sequential_map_fail_fast (f : ι → attempt_result_t ο ε)
    (input : List ι) :
    (∀ (i : Nat) (hi : i < input.length) (e : ε),
        (∀ (j : Nat) (hj : j < input.length), j < i → (f input[j]).has_value = true) →
        f input[i] = .unexpected e →
        async_base.map f input = .unexpected e ∧
          async_base.map_invoked f input = input.take (i + 1)) ∧
    (∀ g : ι → ο, (∀ x ∈ input, f x = .value (g x)) →
        async_base.map f input = .value (input.map g) ∧
          async_base.map_invoked f input = input) :=
  ⟨fun i hi e hpre herr => map_first_error f input i hi e hpre herr,
   fun g h => map_success f g input h⟩

/-- Witness for C2: inputs 10, 11, 12 where 11 fails; the sequential map
returns the error of 11 and the invocation trace is exactly the first two
inputs, so 12 is never invoked. -/
theorem C2_witness :
    async_base.map
      (fun n => if n = 11 then (.unexpected 4 : attempt_result_t Nat Nat) else .value n)
      [10, 11, 12] = .unexpected 4 ∧
    async_base.map_invoked
      (fun n => if n = 11 then (.unexpected 4 : attempt_result_t Nat Nat) else .value n)
      [10, 11, 12] = [10, 11] :=
  (C2_sequential_map_fail_fast
      (fun n => if n = 11 then (.unexpected 4 : attempt_result_t Nat Nat) else .value n)
      [10, 11, 12]).1 1 (by decide) 4
    (by
      intro j hj hj1
      have hj0 : j = 0 := by omega
      subst hj0
      simp [expected.has_value])
    (by decide)

/-- C3: map_concurrently invokes the action exactly once for every input
unconditionally (one future per input, in input order, each holding the
result of one invocation of the action on that input), collects every unit's
result before walking them (the futures vector has one entry per input), and
constructs the aggregate by walking the full results vector: there is no
early return on first failure. -/
theorem C3_concurrent_invokes_all (f : ι → attempt_result_t ο ε)
    (input : List ι) :
    async.futures f input = input.map f ∧
    (async.futures f input).length = input.length ∧
    async.map_concurrently f input = async.collect_results (async.futures f input) :=
  ⟨futures_eq_map f input, by rw [futures_eq_map f input]; simp, rfl⟩

/-- C4: for every pure deterministic action and every input sequence, the
sequential map and map_concurrently return equal AggregateResult values. -/
theorem C4_map_equals_map_concurrently (f : ι → attempt_result_t ο ε)
    (input : List ι) :
    async_base.map f input = async.map_concurrently f input :=
  map_eq_map_concurrently f input

/-- C6: when every attempt returns an Output, the aggregate output sequence
has length equal to the input length and its elements appear in input order
(it is the pointwise image of the inputs); the result is a function of the
action's values on the inputs alone, so two runs whose actions agree on the
inputs produce identical AggregateResult values — completion order does not
occur in the model because the source reads futures back in spawn order. -/
theorem C6_success_order_and_determinism (f : ι → attempt_result_t ο ε)
    (g : ι → ο) (input : List ι) (h : ∀ x ∈ input, f x = .value (g x)) :
    async.map_concurrently f input = .value (input.map g) ∧
    (input.map g).length = input.length ∧
    (∀ f2 : ι → attempt_result_t ο ε, (∀ x ∈ input, f2 x = f x) →
        async.map_concurrently f2 input = async.map_concurrently f input) := by
  refine ⟨?_, by simp, fun f2 h2 => map_concurrently_congr f f2 input h2⟩
  rw [← map_eq_map_concurrently]
  exact (map_success f g input h).1

/-- Witness for C6: squaring each of 1, 2, 3 yields the outputs 1, 4, 9 in
input order. -/
theorem C6_witness :
    async.map_concurrently (fun n => (.value (n * n) : attempt_result_t Nat Nat))
      [1, 2, 3] = .value [1, 4, 9] :=
  (C6_success_order_and_determinism
      (fun n => (.value (n * n) : attempt_result_t Nat Nat)) (fun n => n * n)
      [1, 2, 3] (fun _ _ => rfl)).1

/-- C7: for the empty input sequence every map variant returns a successful
empty output sequence, and the futures vector of each concurrent variant is
empty: no execution unit is spawned, hence the action, the retry predicate
and the retry policy are never invoked, and the sequential invocation trace
is empty. -/
theorem C7_empty_input (f : ι → attempt_result_t ο ε) (p : RetryPolicy)
    (sr : RetryStatus → ο → Bool) (pp : PreemptibleRetry) (cond : Nat → Bool)
    (sr2 : PreemptibleRetryStatus → ο → Bool) :
    async_base.map f ([] : List ι) = .value [] ∧
    async_base.map_invoked f ([] : List ι) = [] ∧
    async.map_concurrently f ([] : List ι) = .value [] ∧
    async.futures f ([] : List ι) = [] ∧
    async_retry.map_concurrently_retry p sr f ([] : List ι) = .value [] ∧
    async.futures (async_retry.retry_f p sr f) ([] : List ι) = [] ∧
    async_preemptible_retry.map_concurrently_preemptible_retry pp cond sr2 f
      ([] : List ι) = .value [] ∧
    async.futures (async_preemptible_retry.retry_f pp cond sr2 f) ([] : List ι) = [] :=
  ⟨rfl, rfl, rfl, rfl, rfl, rfl, rfl, rfl⟩

/-- C5: the adapted predicate handed to the retry policy evaluates to false
unconditionally on an Error result, and returns exactly should_retry on an
Output result; consequently, under the modelled retry-policy contract, if the
first invocation of the action returns an Error the action is invoked exactly
once, the unit result is that error, and the caller's should_retry is never
consulted (the unit result is independent of it). -/
theorem C5_adapted_predicate_error_terminal (p : RetryPolicy)
    (sr : RetryStatus → ο → Bool) :
    (∀ (st : RetryStatus) (e : ε),
        async_retry.inner_should_retry sr st
          (.unexpected e : attempt_result_t ο ε) = false) ∧
    (∀ (st : RetryStatus) (o : ο),
        async_retry.inner_should_retry sr st
          (.value o : attempt_result_t ο ε) = sr st o) ∧
    (∀ (f : ι → attempt_result_t ο ε) (i : ι) (e : ε), f i = .unexpected e →
        async_retry.unit_attempt_count p sr f i = 1 ∧
        async_retry.retry_f p sr f i = .unexpected e ∧
        (∀ sr2 : RetryStatus → ο → Bool,
            async_retry.retry_f p sr2 f i = async_retry.retry_f p sr f i)) := by
  refine ⟨fun st e => inner_should_retry_on_unexpected sr st e,
    fun st o => inner_should_retry_on_value sr st o, ?_⟩
  intro f i e hf
  have hstop : ∀ sr3 : RetryStatus → ο → Bool,
      retry_go (async_retry.inner_should_retry sr3) (fun _ => f i) p.limit 0 = (f i, 1) := by
    intro sr3
    exact retry_go_stop _ (f i) p.limit 0 (by rw [hf]; rfl)
  refine ⟨?_, ?_, ?_⟩
  · show (retry_go (async_retry.inner_should_retry sr) (fun _ => f i) p.limit 0).2 = 1
    rw [hstop sr]
  · show (retry_go (async_retry.inner_should_retry sr) (fun _ => f i) p.limit 0).1
        = .unexpected e
    rw [hstop sr, hf]
  · intro sr2
    show (retry_go (async_retry.inner_should_retry sr2) (fun _ => f i) p.limit 0).1
        = (retry_go (async_retry.inner_should_retry sr) (fun _ => f i) p.limit 0).1
    rw [hstop sr, hstop sr2]

/-- Witness for C5: an action that immediately fails with error 7 is attempted
exactly once under a policy with budget 3, even though should_retry always
answers true. -/
theorem C5_witness :
    async_retry.unit_attempt_count ⟨3⟩ (fun _ _ => true)
      (fun _ => (.unexpected 7 : attempt_result_t Nat Nat)) (0 : Nat) = 1 :=
  ((C5_adapted_predicate_error_terminal ⟨3⟩ (fun _ _ => true)).2.2
    (fun _ => (.unexpected 7 : attempt_result_t Nat Nat)) 0 7 rfl).1

/-- C8: for an input whose action always returns an Output and whose
should_retry answers true on exactly its first k consultations (those with
attempt counter below k) and false on the next, the action is invoked exactly
k + 1 times for that input, provided the retry budget is not exhausted. -/
theorem C8_retry_invocation_count (p : RetryPolicy)
    (sr : RetryStatus → ο → Bool) (f : ι → attempt_result_t ο ε) (i : ι)
    (o0 : ο) (k : Nat) (hf : f i = .value o0)
    (hsr : ∀ st, sr st o0 = decide (st < k)) (hk : k ≤ p.limit) :
    async_retry.unit_attempt_count p sr f i = k + 1 := by
  have hq : ∀ st, async_retry.inner_should_retry sr st (f i) = decide (st < k) := by
    intro st
    rw [hf]
    rw [inner_should_retry_on_value sr st o0]
    exact hsr st
  have h2 := (retry_go_threshold (async_retry.inner_should_retry sr) (f i) k hq
    p.limit 0 (by omega)).2
  show (retry_go (async_retry.inner_should_retry sr) (fun _ => f i) p.limit 0).2 = k + 1
  rw [h2]
  omega

/-- Witness for C8: with should_retry true exactly on attempt counters 0 and 1
(k = 2) and a budget of 5, an always-succeeding action is invoked 3 times. -/
theorem C8_witness :
    async_retry.unit_attempt_count ⟨5⟩ (fun st _ => decide (st < 2))
      (fun _ => (.value 0 : attempt_result_t Nat Nat)) (0 : Nat) = 3 :=
  C8_retry_invocation_count ⟨5⟩ (fun st _ => decide (st < 2))
    (fun _ => (.value 0 : attempt_result_t Nat Nat)) 0 0 2 rfl (fun _ => rfl)
    (by decide)

/-- C9: in map_concurrently_preemptible_retry, each unit hands the
cancellation observation, the adapted predicate and the per-input inner
action unchanged to the external PreemptibleRetry, and under the modelled
policy contract, once cond becomes true (cond is monotone and true at
boundary k) no unit starts a new retry attempt after observing it: the number
of attempts of every unit is at most max k 1 (the attempt in flight when the
signal flips still completes, so at least one attempt may run). -/
theorem C9_preemptible_no_attempt_after_signal (pp : PreemptibleRetry)
    (cond : Nat → Bool) (sr : PreemptibleRetryStatus → ο → Bool)
    (f : ι → attempt_result_t ο ε) (i : ι) (k : Nat)
    (hmono : ∀ m n : Nat, m ≤ n → cond m = true → cond n = true)
    (hk : cond k = true) :
    async_preemptible_retry.unit_attempt_count pp cond sr f i ≤ max k 1 ∧
    async_preemptible_retry.retry_f pp cond sr f i =
      pp.retry cond (async_preemptible_retry.inner_should_retry sr) (fun _ => f i) := by
  refine ⟨?_, rfl⟩
  have h := preemptible_retry_go_bound cond
    (async_preemptible_retry.inner_should_retry sr) (fun _ => f i) k hmono hk pp.fuel 0
  simpa using h

/-- Witness for C9: the signal becomes true at boundary 2; a unit whose
predicate always asks to retry performs at most 2 attempts although the
combined budget would allow 11. -/
theorem C9_witness :
    async_preemptible_retry.unit_attempt_count ⟨⟨5⟩, ⟨5⟩⟩ (fun n => decide (2 ≤ n))
      (fun _ _ => true) (fun _ => (.value 0 : attempt_result_t Nat Nat))
      (0 : Nat) ≤ max 2 1 :=
  (C9_preemptible_no_attempt_after_signal ⟨⟨5⟩, ⟨5⟩⟩ (fun n => decide (2 ≤ n))
    (fun _ _ => true) (fun _ => (.value 0 : attempt_result_t Nat Nat)) 0 2
    (by
      intro m n hmn hm
      simp only [decide_eq_true_eq] at hm ⊢
      omega)
    (by decide)).1

/-- C10: when the caller's should_retry is constantly false, the adapted
predicate is false on both Output and Error results, so under the modelled
retry-policy contract every unit performs exactly its first attempt and
map_concurrently_retry returns the same AggregateResult as plain
map_concurrently, for every policy, action and input sequence. -/
theorem C10_constant_false_reduces_to_map_concurrently (p : RetryPolicy)
    (f : ι → attempt_result_t ο ε) (input : List ι) :
    async_retry.map_concurrently_retry p (fun _ _ => false) f input =
      async.map_concurrently f input := by
  have hpt : ∀ x, async_retry.retry_f p (fun _ _ => false) f x = f x := by
    intro x
    have hq : async_retry.inner_should_retry
        (fun (_ : RetryStatus) (_ : ο) => false) 0 (f x) = false := by
      cases hfx : f x
      · exact inner_should_retry_on_value _ 0 _
      · exact inner_should_retry_on_unexpected _ 0 _
    show (retry_go (async_retry.inner_should_retry (fun _ _ => false))
        (fun _ => f x) p.limit 0).1 = f x
    rw [retry_go_stop _ (f x) p.limit 0 hq]
  exact map_concurrently_congr f _ input (fun x _ => hpt x)

end lt.async
